import Mathlib

/-!
Shallow embedding of `src/regex.c` (the al-farahidi regex-grammar front end).

Modelling conventions:
* A line delivered by `fgets` is a `List Char` without the terminating NUL;
  the C tests `**p == '\0'` are rendered as "the remaining list is empty or
  its head is the NUL character" (`headD '\x00'`), which coincides with the
  buffer semantics because `headD` of the empty list yields the default.
* The three process-wide arenas (`nonterms`, `exprPool`, `termPool`) are
  modelled as growing lists whose length plays the role of the allocation
  cursors `currentNonterm`, `freeExprIdx` and `currentTermStart - termPool`.
  The static C arrays are zero-initialised and never reclaimed except for the
  single `freeExprIdx--` at the end of a body, so the observable content of
  the allocated prefix is exactly what these lists hold; a byte of a terminal
  slot that the C code never writes keeps its zero initialisation, which the
  model reproduces by appending an explicit NUL byte.
* Fatal errors (`fatal_error` and the failing `assert`s, which both abort the
  process) are modelled by `Except`; the `line:column` diagnostic counters
  are not modelled, since the C code uses them only inside error messages.
* Warnings (`Incorrect escape sequence`) only print; they are not modelled.
-/

/-- Operator kinds of `regex.h` (`NO_OP`, `OR`, `AND`, `ZERO_OR_MORE`). -/
inductive OperatorType where
  | NO_OP
  | OR
  | AND
  | ZERO_OR_MORE
deriving DecidableEq, Repr

/-- Operand kinds of `regex.h`
(`NESTED_EXPRESSION`, `NON_TERMINAL`, `TERMINAL`, `NOTHING`). -/
inductive OperandType where
  | NESTED_EXPRESSION
  | NON_TERMINAL
  | TERMINAL
  | NOTHING
deriving DecidableEq, Repr

/-- An expression-pool node: `type`, the two operand references `op1`/`op2`
(pool offsets or `-1`) and their tags. -/
structure Expression where
  type : OperatorType
  op1 : Int
  op1Type : OperandType
  op2 : Int
  op2Type : OperandType
deriving DecidableEq, Repr

/-- A non-terminal record: `name` (stored with its leading `$`), the
`complete` flag, the stable `idx` and the root expression offset `expr`. -/
structure NonTerminal where
  name : List Char
  complete : Bool
  idx : Nat
  expr : Nat
deriving DecidableEq, Repr

/-- The three arenas of `regex.c`: the non-terminal table, the expression
pool and the terminal byte pool.  Lengths of the lists are the C cursors
`currentNonterm`, `freeExprIdx` and `currentTermStart - termPool`. -/
structure PState where
  nonterms : List NonTerminal
  exprPool : List Expression
  termPool : List Char
deriving DecidableEq, Repr

/-- The configuration constants of the (not provided) headers:
`MAX_NONTERMS`, `MAX_NESTED_EXPRS`, `MAX_TOTAL_TERM_LEN`,
`MAX_NONTERM_NAME`. -/
structure Config where
  maxNonterms : Nat
  maxNestedExprs : Nat
  maxTotalTermLen : Nat
  maxNontermName : Nat
deriving DecidableEq, Repr

/-- Modelled from the spec: the numeric values of the configuration constants
live in the repository headers (`include/regex.h`, `include/utils.h`) that are
not part of `src/`; the spec only says they are fixed configuration bounds, so
a representative instantiation is used for concrete runs.  No claim below
depends on the particular values. -/
def defaultConfig : Config :=
  { maxNonterms := 64, maxNestedExprs := 256,
    maxTotalTermLen := 1024, maxNontermName := 32 }

/-- Error kinds: the spec names for the `fatal_error`/failing-`assert` sites
of `regex.c`.  `OutOfFuel` is an artifact of the fuel-based rendering of the
`parse_body` loop and is unreachable for the fuel `parse_body` supplies. -/
inductive Err where
  | MissingNonTerminalMarker
  | EmptyName
  | NameTooLong
  | MissingAssignment
  | MissingBody
  | DuplicateDefinition
  | OperatorWithoutOperand
  | IncompleteEscapeSequence
  | CapacityExceeded
  | InternalInconsistency
  | OutOfFuel
deriving DecidableEq, Repr

deriving instance DecidableEq for Except

/-- C `isspace` on the default locale. -/
def isspaceC (c : Char) : Bool :=
  c == ' ' || c == '\t' || c == '\n' || c == '\x0b' || c == '\x0c' || c == '\r'

/-- Character that continues an operand/name token:
not the string terminator and not whitespace. -/
def tokenChar (c : Char) : Bool :=
  !(c == '\x00') && !(isspaceC c)

/-- The skip loop `while (isspace(**p))` (also skips newlines). -/
def skipAllSpace (l : List Char) : List Char :=
  l.dropWhile isspaceC

/-- The skip loop `while (isspace(**p) && **p != '\n')`. -/
def skipSpaceNotNl (l : List Char) : List Char :=
  l.dropWhile (fun c => isspaceC c && !(c == '\n'))

/-- Zero-initialised expression slot.  Fields of a slot are always written
before they are exposed, so the particular values never reach a final table;
they stand for the zero-initialised static storage. -/
def dfltE : Expression :=
  { type := .NO_OP, op1 := 0, op1Type := .NOTHING, op2 := 0, op2Type := .NOTHING }

/-- Zero-initialised non-terminal slot (static storage default). -/
def dfltNT : NonTerminal :=
  { name := [], complete := false, idx := 0, expr := 0 }

/-- `memcpy2` of `regex.c`: copies `n` bytes from `src`, treating `@` as the
escape character.  On an escape the C code advances past the `@`, looks the
escaped character up in the escape table and computes the replacement into
the local `c` -- but then executes `*dest = *src`, copying the escaped
character verbatim: `c` is never read.  The function therefore returns the
bytes actually written (one per iteration) together with the number of
escape sequences consumed (`copied = n - escapes`).  An `@` reached when no
iteration remains is the fatal incomplete-escape error.  Reads past the end
of `src` (the C code can read bytes after the token) yield the NUL default,
matching the zero/terminator bytes of the line buffer. -/
def memcpy2Aux (src : List Char) : Nat → Except Err (List Char × Nat)
  | 0 => .ok ([], 0)
  | n + 1 =>
    let c0 := src.headD '\x00'
    if c0 == '@' then
      if n == 0 then
        .error .IncompleteEscapeSequence
      else
        -- src++; the replacement char is computed from "_@|*$" / " @|*$"
        -- in the C code but never used; the escaped char is copied verbatim.
        let c1 := src.tail.headD '\x00'
        match memcpy2Aux src.tail.tail n with
        | .error e => .error e
        | .ok (d, esc) => .ok (c1 :: d, esc + 1)
    else
      match memcpy2Aux src.tail n with
      | .error e => .error e
      | .ok (d, esc) => .ok (c0 :: d, esc)

/-- The `memcmp(nonterms[i].name, operandStart, operandNameSize) == 0` test of
`parse_operand`: compares exactly `n` bytes of the stored (NUL-padded) name
buffer against the token. -/
def memcmpName (stored tok : List Char) (n : Nat) : Bool :=
  (List.range n).all fun k => stored.getD k '\x00' == tok.getD k '\x00'

/-- `parse_operator` of `regex.c`: skips blanks (not newline), then returns
`NO_OP` at end of line (consuming nothing), `OR` / `ZERO_OR_MORE` consuming
the operator character, and otherwise `AND` consuming nothing. -/
def parse_operator (rest : List Char) : OperatorType × List Char :=
  let r := skipSpaceNotNl rest
  let c0 := r.headD '\x00'
  if c0 == '\n' || c0 == '\x00' then (.NO_OP, r)
  else if c0 == '|' then (.OR, r.tail)
  else if c0 == '*' then (.ZERO_OR_MORE, r.tail)
  else (.AND, r)

/-- Token scan and suffix-star split of `parse_operand` (`regex.c` lines
242-253): scans the maximal token, then, when the token's last character is
`*` and the character before it is not `@`, drops the `*` from the token and
backs the cursor up onto it (the returned rest starts with the `*`).  When
the last token character is `*` the token has at least two characters,
because a token cannot start with `*`, so the `*(p-2)` read stays inside the
token. -/
def scanOperandToken (r : List Char) : List Char × List Char :=
  let tok0 := r.takeWhile tokenChar
  let rTail := r.dropWhile tokenChar
  let doSplit :=
    tok0.getLastD '\x00' == '*' && !(tok0.getD (tok0.length - 2) '\x00' == '@')
  if doSplit then (tok0.dropLast, '*' :: rTail) else (tok0, rTail)

/-- Resolution step of `parse_operand` (`regex.c` lines 255-291) on the
scanned token.  A `$`-token is resolved with `memcmpName` against every
existing entry and a placeholder is allocated when no entry matches; any
other token is escape-copied into the terminal pool, NUL-terminated at
`copied`, and the pool cursor advances by `tokenLength + 1`. -/
def resolveOperand (cfg : Config) (s : PState) (tok r1 : List Char) :
    Except Err (PState × List Char × OperandType × Int) :=
  let n := tok.length
  if tok.headD '\x00' == '$' then
    if n == 1 then .error .EmptyName
    else
      match s.nonterms.findIdx? (fun nt => memcmpName nt.name tok n) with
      | some i => .ok (s, r1, .NON_TERMINAL, (i : Int))
      | none =>
        let i := s.nonterms.length
        if i + 1 < cfg.maxNonterms then
          .ok ({ s with nonterms := s.nonterms ++ [⟨tok, false, i, 0⟩] },
               r1, .NON_TERMINAL, (i : Int))
        else .error .CapacityExceeded
  else
    if s.termPool.length + n ≤ cfg.maxTotalTermLen then
      match memcpy2Aux (tok ++ r1) n with
      | .error e => .error e
      | .ok (d, esc) =>
        let slot := (d ++ ['\x00']).set (n - esc) '\x00'
        .ok ({ s with termPool := s.termPool ++ slot },
             r1, .TERMINAL, (s.termPool.length : Int))
    else .error .CapacityExceeded

/-- `parse_operand` of `regex.c`.  Skips blanks; end of line is the `NOTHING`
termination signal (an error in C terms it is not); a leading `|` or `*` is
the fatal operator-without-operand error; otherwise the token is scanned,
split and resolved. -/
def parse_operand (cfg : Config) (s : PState) (rest : List Char) :
    Except Err (PState × List Char × OperandType × Int) :=
  let r := skipSpaceNotNl rest
  let c0 := r.headD '\x00'
  if c0 == '\x00' || c0 == '\n' then .ok (s, r, .NOTHING, -1)
  else if c0 == '|' || c0 == '*' then .error .OperatorWithoutOperand
  else resolveOperand cfg s (scanOperandToken r).1 (scanOperandToken r).2

/-- Name-resolution step of `parse_header` (`regex.c` lines 112-133): the
name (with its `$`) is looked up by exact `strcmp` match; a complete entry is
the fatal re-definition error, an incomplete placeholder is reused, and
otherwise a fresh slot is allocated; `name` and `idx` are then written into
the slot. -/
def resolveHeaderName (cfg : Config) (s : PState) (tok : List Char) :
    Except Err (PState × Nat) :=
  match s.nonterms.findIdx? (fun nt => nt.name == tok) with
  | some i =>
    if (s.nonterms.getD i dfltNT).complete then .error .DuplicateDefinition
    else
      .ok ({ s with nonterms :=
              (s.nonterms.set i
                ({ s.nonterms.getD i dfltNT with name := tok, idx := i })) }, i)
  | none =>
    let i := s.nonterms.length
    if i + 1 < cfg.maxNonterms then
      .ok ({ s with nonterms := s.nonterms ++ [⟨tok, false, i, 0⟩] }, i)
    else .error .CapacityExceeded

/-- `parse_header` of `regex.c`: demands a leading `$`, scans the name
(keeping the `$`), rejects an empty or over-long name and a line ending right
after the name, resolves the name against the table, then demands `:=` and a
non-empty body. -/
def parse_header (cfg : Config) (s : PState) (rest : List Char) :
    Except Err (PState × List Char × Nat) :=
  if !(rest.headD '\x00' == '$') then .error .MissingNonTerminalMarker
  else
    let tok := rest.takeWhile tokenChar
    let r1 := rest.dropWhile tokenChar
    if tok.length == 1 then .error .EmptyName
    else
      let c1 := r1.headD '\x00'
      if c1 == '\x00' || c1 == '\n' then .error .MissingAssignment
      else if cfg.maxNontermName < tok.length then .error .NameTooLong
      else
        match resolveHeaderName cfg s tok with
        | .error e => .error e
        | .ok (s1, i) =>
          match skipAllSpace r1 with
          | ':' :: '=' :: r3 =>
            let r4 := skipSpaceNotNl r3
            let c4 := r4.headD '\x00'
            if c4 == '\x00' || c4 == '\n' then .error .MissingBody
            else .ok (s1, r4, i)
          | _ => .error .MissingAssignment

/-- Loop-head writes of `parse_body` (`regex.c` lines 169-171): store the
lexed operator and first operand into the node `currentExpr` points at. -/
def writeCurrent (s : PState) (curPtr : Nat) (opCode : OperatorType)
    (op : Int) (opType : OperandType) : PState :=
  { s with exprPool :=
      (s.exprPool.set curPtr
        ({ s.exprPool.getD curPtr dfltE with
           type := opCode, op1 := op, op1Type := opType })) }

/-- Star-splice branch of `parse_body` (`regex.c` lines 182-198).  On
`ZERO_OR_MORE`: clear the current node's second operand, allocate the
wrapper node (typed by the operator that follows the star, its first operand
the node `currentExprIdx` designates), redirect `prevExpr->op2` to the
wrapper — when `prevIdx = curPtr` (the body's first operand is starred) this
overwrites the `op2 = -1` just written, the aliasing hazard of the source —
and continue with the wrapper as the current node (`currentExprIdx` is not
updated, exactly as in the C code).  On any other operator the step does
nothing. -/
def starStep (cfg : Config) (sB : PState) (rB : List Char)
    (opCode : OperatorType) (curPtr curIdx prevIdx : Nat) :
    Except Err (PState × List Char × Nat) :=
  if opCode == .ZERO_OR_MORE then
    let sC := { sB with exprPool :=
        (sB.exprPool.set curPtr
          ({ sB.exprPool.getD curPtr dfltE with
             op2 := -1, op2Type := .NOTHING })) }
    if sC.exprPool.length < cfg.maxNestedExprs then
      let wrapIdx := sC.exprPool.length
      let (opCode2, rC) := parse_operator rB
      let wrapE := { dfltE with
                     type := opCode2, op1 := (curIdx : Int),
                     op1Type := .NESTED_EXPRESSION }
      let sD := { sC with exprPool := (sC.exprPool ++ [wrapE]) }
      let sE := { sD with exprPool :=
          (sD.exprPool.set prevIdx
            ({ sD.exprPool.getD prevIdx dfltE with
               op2 := (wrapIdx : Int), op2Type := .NESTED_EXPRESSION })) }
      .ok (sE, rC, wrapIdx)
    else .error .CapacityExceeded
  else .ok (sB, rB, curPtr)

/-- Loop-tail step of `parse_body` (`regex.c` lines 200-207): point the
current node's second operand at the next free slot and allocate that slot
speculatively. -/
def allocNext (s1 : PState) (cur1 : Nat) : PState :=
  { s1 with exprPool :=
      ((s1.exprPool.set cur1
          ({ s1.exprPool.getD cur1 dfltE with
             op2 := (s1.exprPool.length : Int),
             op2Type := .NESTED_EXPRESSION })) ++ [dfltE]) }

/-- The operand/operator loop of `parse_body`.  Arguments after the fuel:
state, rest of the line, `curPtr` (index of the node `currentExpr` points
at), `curIdx` (the C variable `currentExprIdx`) and `prevIdx` (index
`prevExpr` points at).  Returns the state, the rest and `prevIdx` at loop
exit.  The fuel is an artifact of the total encoding; each iteration
consumes at least one character, so `rest.length + 1` is always enough. -/
def parse_bodyLoop (cfg : Config) :
    Nat → PState → List Char → Nat → Nat → Nat →
    Except Err (PState × List Char × Nat)
  | 0, _, _, _, _, _ => .error .OutOfFuel
  | fuel + 1, s, rest, curPtr, curIdx, prevIdx =>
    match parse_operand cfg s rest with
    | .error e => .error e
    | .ok (sA, rA, opType, op) =>
      if opType == .NOTHING then .ok (sA, rA, prevIdx)
      else
        let (opCode, rB) := parse_operator rA
        match starStep cfg (writeCurrent sA curPtr opCode op opType) rB
            opCode curPtr curIdx prevIdx with
        | .error e => .error e
        | .ok (s1, r1, cur1) =>
          if s1.exprPool.length < cfg.maxNestedExprs then
            parse_bodyLoop cfg fuel (allocNext s1 cur1) r1
              s1.exprPool.length s1.exprPool.length cur1
          else .error .CapacityExceeded

/-- Entry writes of `parse_body` (`regex.c` lines 158-163): allocate the
first node of the body and record it as the definition's root expression. -/
def bodyInit (s : PState) (nontermIdx : Nat) : PState :=
  { s with
    nonterms := (s.nonterms.set nontermIdx
      ({ s.nonterms.getD nontermIdx dfltNT with expr := s.exprPool.length })),
    exprPool := (s.exprPool ++ [dfltE]) }

/-- `parse_body` of `regex.c`: allocates the first node of the body, records
it as the definition's root, runs the loop; at exit the defensive check
demands that the last completed node is `NO_OP` or `ZERO_OR_MORE`, the single
speculative trailing node is reclaimed (`freeExprIdx--`) and the last node's
second operand is cleared. -/
def parse_body (cfg : Config) (s : PState) (rest : List Char) (nontermIdx : Nat) :
    Except Err (PState × List Char) :=
  if s.exprPool.length < cfg.maxNestedExprs then
    let firstIdx := s.exprPool.length
    match parse_bodyLoop cfg (rest.length + 1) (bodyInit s nontermIdx) rest
        firstIdx firstIdx firstIdx with
    | .error e => .error e
    | .ok (s2, r2, prevIdx) =>
      let prev := s2.exprPool.getD prevIdx dfltE
      if prev.type == .NO_OP || prev.type == .ZERO_OR_MORE then
        let s3 := { s2 with exprPool := s2.exprPool.dropLast }
        let s4 := { s3 with exprPool :=
                    (s3.exprPool.set prevIdx
                      ({ s3.exprPool.getD prevIdx dfltE with
                         op2 := -1, op2Type := .NOTHING })) }
        .ok (s4, r2)
      else .error .InternalInconsistency
  else .error .CapacityExceeded

/-- `parse_regex` of `regex.c`: one input line.  Leading whitespace is
skipped (newline included); an exhausted line or a `!` comment is ignored;
otherwise header then body are parsed and the resolved non-terminal is
marked complete. -/
def parse_regexLine (cfg : Config) (s : PState) (line : List Char) :
    Except Err PState :=
  let r := skipAllSpace line
  let c0 := r.headD '\x00'
  if c0 == '\x00' then .ok s
  else if c0 == '!' then .ok s
  else
    match parse_header cfg s r with
    | .error e => .error e
    | .ok (s1, r1, i) =>
      match parse_body cfg s1 r1 i with
      | .error e => .error e
      | .ok (s2, _) =>
        .ok { s2 with nonterms :=
                (s2.nonterms.set i
                  ({ s2.nonterms.getD i dfltNT with complete := true })) }

/-- The `while (fgets(...))` driver of `parse_regex_spec`, over a list of
already-read lines.  A fatal error aborts the whole run. -/
def parseLines (cfg : Config) (s : PState) : List (List Char) → Except Err PState
  | [] => .ok s
  | l :: ls =>
    match parse_regexLine cfg s l with
    | .error e => .error e
    | .ok s1 => parseLines cfg s1 ls

/-- Empty (zero-initialised) arenas at process start. -/
def initState : PState := { nonterms := [], exprPool := [], termPool := [] }

/-- `parse_regex_spec` on a full input: run every line against fresh arenas;
the returned state carries the three tables (the non-terminal count of the C
interface is `nonterms.length`). -/
def runSpec (cfg : Config) (lines : List (List Char)) : Except Err PState :=
  parseLines cfg initState lines

/-- Final state of the run on the single line `$A := x* y`. -/
def stC1 : PState :=
  { nonterms := [⟨['$', 'A'], true, 0, 0⟩],
    exprPool :=
      [⟨.ZERO_OR_MORE, 0, .TERMINAL, 1, .NESTED_EXPRESSION⟩,
       ⟨.AND, 0, .NESTED_EXPRESSION, 2, .NESTED_EXPRESSION⟩,
       ⟨.NO_OP, 2, .TERMINAL, -1, .NOTHING⟩],
    termPool := ['x', '\x00', 'y', '\x00'] }

/-- State of the arenas right after the header of `$A := ` has been parsed
and `parse_body` has allocated the first body node. -/
def sA8 : PState :=
  { nonterms := [⟨['$', 'A'], false, 0, 0⟩], exprPool := [dfltE], termPool := [] }

/-- Arenas holding a single incomplete non-terminal `$A`, as they stand when
`parse_body` is entered for the line `$A := x`. -/
def sW7 : PState :=
  { nonterms := [⟨['$', 'A'], false, 0, 0⟩], exprPool := [], termPool := [] }

/-- Result state of `parse_body` on `sW7` with body `x`. -/
def stW7 : PState :=
  { nonterms := [⟨['$', 'A'], false, 0, 0⟩],
    exprPool := [⟨.NO_OP, 0, .TERMINAL, -1, .NOTHING⟩],
    termPool := ['x', '\x00'] }

/-- Final state of the run on the single line `$A := $B` (used to witness
the name/index invariant on a placeholder created by a reference). -/
def stW10 : PState :=
  { nonterms :=
      [⟨['$', 'A'], true, 0, 0⟩, ⟨['$', 'B'], false, 1, 0⟩],
    exprPool := [⟨.NO_OP, 1, .NON_TERMINAL, -1, .NOTHING⟩],
    termPool := [] }

/-- State of the arenas right after the header of `$A := ` has been parsed
(before `parse_body` allocates the first body node). -/
def sH8 : PState :=
  { nonterms := [⟨['$', 'A'], false, 0, 0⟩], exprPool := [], termPool := [] }

/-- Final state of the run on the single line `$A := term@*`: the escaped
star does not split, so the token is a plain terminal whose stored bytes
contain the star (the `@` is dropped by the copy, and the pool cursor still
advances by the raw token length plus one, leaving a stale zero byte). -/
def stC8 : PState :=
  { nonterms := [⟨['$', 'A'], true, 0, 0⟩],
    exprPool := [⟨.NO_OP, 0, .TERMINAL, -1, .NOTHING⟩],
    termPool := ['t', 'e', 'r', 'm', '*', '\x00', '\x00'] }

/-- Claim C1, counterexample.  For the input `$A := x* y` the definition's
root (the body's first node, `nonterms[0].expr = 0`) is indeed the starred
node with operator kind `ZERO_OR_MORE`, but its right operand is not
`Absent`: the splice step runs with `previous` aliased to `current` (the
first operand of the body is starred), so `previous->op2 = wrap` overwrites
the `op2 = -1` just written and the root keeps a nested reference to the
wrapper node. -/
theorem cex_C1 :
    runSpec defaultConfig
        [['$', 'A', ' ', ':', '=', ' ', 'x', '*', ' ', 'y', '\n']] = .ok stC1 ∧
    (stC1.exprPool.getD (stC1.nonterms.getD 0 dfltNT).expr dfltE).type =
      .ZERO_OR_MORE ∧
    (stC1.exprPool.getD (stC1.nonterms.getD 0 dfltNT).expr dfltE).op2Type ≠
      .NOTHING := by
  refine ⟨by decide, by decide, by decide⟩

/-- Claim C1, amended.  For `$A := x* y` the root is the starred node
`(x ZeroOrMore _)` whose right operand, because of the first-operand
aliasing of the splice, is `Nested(wrap)` rather than `Absent`; the wrapper
splice node is `(Nested(root) Concat (y End Absent))`, with the starred unit
as its nested left operand and `(y End Absent)` as its right operand. -/
theorem thm_C1_amended :
    runSpec defaultConfig
        [['$', 'A', ' ', ':', '=', ' ', 'x', '*', ' ', 'y', '\n']] = .ok stC1 ∧
    (stC1.nonterms.getD 0 dfltNT).expr = 0 ∧
    stC1.exprPool.getD 0 dfltE =
      ⟨.ZERO_OR_MORE, 0, .TERMINAL, 1, .NESTED_EXPRESSION⟩ ∧
    stC1.exprPool.getD 1 dfltE =
      ⟨.AND, 0, .NESTED_EXPRESSION, 2, .NESTED_EXPRESSION⟩ ∧
    stC1.exprPool.getD 2 dfltE = ⟨.NO_OP, 2, .TERMINAL, -1, .NOTHING⟩ ∧
    stC1.termPool = ['x', '\x00', 'y', '\x00'] := by
  refine ⟨by decide, by decide, by decide, by decide, by decide, by decide⟩

/-- Final state of the run on the single line `$A := a@_b`. -/
def stC2 : PState :=
  { nonterms := [⟨['$', 'A'], true, 0, 0⟩],
    exprPool := [⟨.NO_OP, 0, .TERMINAL, -1, .NOTHING⟩],
    termPool := ['a', '_', 'b', '\x00', '\x00'] }

/-- Claim C2, evaluation at the failing input.  The token `a@_b` is stored
in the terminal pool as the bytes `a_b` (the escape sequence `@_` loses its
`@` but the `_` is copied verbatim instead of being replaced by a space:
`memcpy2` computes the replacement character into its local `c` and then
never uses it), not as the claimed three-byte string `a b`. -/
theorem thm_C2_bug :
    runSpec defaultConfig
        [['$', 'A', ' ', ':', '=', ' ', 'a', '@', '_', 'b', '\n']] = .ok stC2 ∧
    stC2.termPool.getD 1 '\x00' = '_' ∧
    stC2.termPool.getD 1 '\x00' ≠ ' ' := by
  refine ⟨by decide, by decide, by decide⟩

/-- Final state of the run on `$abc := x` followed by `$X := $ab`. -/
def stC3 : PState :=
  { nonterms :=
      [⟨['$', 'a', 'b', 'c'], true, 0, 0⟩, ⟨['$', 'X'], true, 1, 1⟩],
    exprPool :=
      [⟨.NO_OP, 0, .TERMINAL, -1, .NOTHING⟩,
       ⟨.NO_OP, 0, .NON_TERMINAL, -1, .NOTHING⟩],
    termPool := ['x', '\x00'] }

/-- Claim C3, evaluation at the failing input.  After `$abc := x`, the
reference `$ab` in `$X := $ab` resolves to the entry named `$abc` (the
lookup compares only `operandNameSize` bytes with `memcmp`, a prefix match,
unlike the exact `strcmp` used by the header): the run ends with only two
table entries and `$X`'s root operand is non-terminal index 0, the `$abc`
record — no `$ab` placeholder is allocated. -/
theorem thm_C3_bug :
    runSpec defaultConfig
        [['$', 'a', 'b', 'c', ' ', ':', '=', ' ', 'x', '\n'],
         ['$', 'X', ' ', ':', '=', ' ', '$', 'a', 'b', '\n']] = .ok stC3 ∧
    stC3.nonterms.length = 2 ∧
    (stC3.exprPool.getD 1 dfltE).op1 = 0 ∧
    (stC3.exprPool.getD 1 dfltE).op1Type = .NON_TERMINAL ∧
    (stC3.nonterms.getD 0 dfltNT).name = ['$', 'a', 'b', 'c'] := by
  refine ⟨by decide, by decide, by decide, by decide, by decide⟩

/-- Claim C4.  The three star-free bodies of the spec produce exactly the
right-associative chains it describes: `$A := x` gives a single root
`(x End Absent)`; `$A := x y` gives `(x Concat (y End Absent))`;
`$A := x | y` gives `(x Alternate (y End Absent))` (terminal pool offsets
0 and 2 hold `x` and `y`). -/
theorem thm_C4 :
    runSpec defaultConfig [['$', 'A', ' ', ':', '=', ' ', 'x', '\n']] =
      .ok { nonterms := [⟨['$', 'A'], true, 0, 0⟩],
            exprPool := [⟨.NO_OP, 0, .TERMINAL, -1, .NOTHING⟩],
            termPool := ['x', '\x00'] } ∧
    runSpec defaultConfig [['$', 'A', ' ', ':', '=', ' ', 'x', ' ', 'y', '\n']] =
      .ok { nonterms := [⟨['$', 'A'], true, 0, 0⟩],
            exprPool :=
              [⟨.AND, 0, .TERMINAL, 1, .NESTED_EXPRESSION⟩,
               ⟨.NO_OP, 2, .TERMINAL, -1, .NOTHING⟩],
            termPool := ['x', '\x00', 'y', '\x00'] } ∧
    runSpec defaultConfig
        [['$', 'A', ' ', ':', '=', ' ', 'x', ' ', '|', ' ', 'y', '\n']] =
      .ok { nonterms := [⟨['$', 'A'], true, 0, 0⟩],
            exprPool :=
              [⟨.OR, 0, .TERMINAL, 1, .NESTED_EXPRESSION⟩,
               ⟨.NO_OP, 2, .TERMINAL, -1, .NOTHING⟩],
            termPool := ['x', '\x00', 'y', '\x00'] } := by
  refine ⟨by decide, by decide, by decide⟩

/-- State after processing only the first line `$A := $B`. -/
def stC5a : PState :=
  { nonterms :=
      [⟨['$', 'A'], true, 0, 0⟩, ⟨['$', 'B'], false, 1, 0⟩],
    exprPool := [⟨.NO_OP, 1, .NON_TERMINAL, -1, .NOTHING⟩],
    termPool := [] }

/-- State after processing `$A := $B` and then `$B := z`. -/
def stC5b : PState :=
  { nonterms :=
      [⟨['$', 'A'], true, 0, 0⟩, ⟨['$', 'B'], true, 1, 1⟩],
    exprPool :=
      [⟨.NO_OP, 1, .NON_TERMINAL, -1, .NOTHING⟩,
       ⟨.NO_OP, 0, .TERMINAL, -1, .NOTHING⟩],
    termPool := ['z', '\x00'] }

/-- Claim C5.  Forward references have a stable identity: after the first
line `$A := $B` the reference has allocated placeholder index 1 for `$B`
with `complete = false`; after `$B := z` the header has reused that slot
(the table still has exactly two entries), `$B` is complete only then, and
the reference stored in `$A`'s root (`op1 = 1`) is the index of the record
completed by `$B`'s own line. -/
theorem thm_C5 :
    runSpec defaultConfig
        [['$', 'A', ' ', ':', '=', ' ', '$', 'B', '\n']] = .ok stC5a ∧
    stC5a.nonterms.getD 1 dfltNT = ⟨['$', 'B'], false, 1, 0⟩ ∧
    runSpec defaultConfig
        [['$', 'A', ' ', ':', '=', ' ', '$', 'B', '\n'],
         ['$', 'B', ' ', ':', '=', ' ', 'z', '\n']] = .ok stC5b ∧
    stC5b.nonterms.length = 2 ∧
    (stC5b.nonterms.getD 1 dfltNT).complete = true ∧
    (stC5b.nonterms.getD 1 dfltNT).idx = 1 ∧
    (stC5b.exprPool.getD (stC5b.nonterms.getD 0 dfltNT).expr dfltE).op1 = 1 ∧
    (stC5b.exprPool.getD (stC5b.nonterms.getD 0 dfltNT).expr dfltE).op1Type =
      .NON_TERMINAL := by
  refine ⟨by decide, by decide, by decide, by decide, by decide, by decide,
    by decide, by decide⟩

/-- Claim C6.  The three malformed inputs fail with exactly the error kind
the spec names, and each failure is fatal: a later well-formed line (`$B`)
is never processed, the whole run returning the error. -/
theorem thm_C6 :
    runSpec defaultConfig [['$', ' ', ':', '=', ' ', 'x', '\n']] =
      .error .EmptyName ∧
    runSpec defaultConfig
        [['$', 'A', ' ', ':', '=', ' ', '|', ' ', 'x', '\n'],
         ['$', 'B', ' ', ':', '=', ' ', 'y', '\n']] =
      .error .OperatorWithoutOperand ∧
    runSpec defaultConfig
        [['$', 'A', ' ', ':', '=', ' ', 'x', '\n'],
         ['$', 'A', ' ', ':', '=', ' ', 'x', '\n'],
         ['$', 'B', ' ', ':', '=', ' ', 'y', '\n']] =
      .error .DuplicateDefinition := by
  refine ⟨by decide, by decide, by decide⟩

/-- Claim C7, counterexample.  The body of `$A := x |` triggers none of the
user-facing fatal errors of the error table (its operand and operator lexes
all succeed), yet at loop exit the last completed node has operator kind
`OR`, so the "defensive check, not a user-facing error" fires and aborts the
run: the check is reachable from plain user input. -/
theorem cex_C7 :
    runSpec defaultConfig
        [['$', 'A', ' ', ':', '=', ' ', 'x', ' ', '|', '\n']] =
      .error .InternalInconsistency := by
  decide

/-- Configuration exhibiting the terminal-pool capacity slip: a pool of 2
bytes. -/
def cfgC9 : Config :=
  { maxNonterms := 64, maxNestedExprs := 256,
    maxTotalTermLen := 2, maxNontermName := 32 }

/-- Final state of the `$A := xy` run against `cfgC9`. -/
def stC9 : PState :=
  { nonterms := [⟨['$', 'A'], true, 0, 0⟩],
    exprPool := [⟨.NO_OP, 0, .TERMINAL, -1, .NOTHING⟩],
    termPool := ['x', 'y', '\x00'] }

/-- Claim C9, evaluation at the failing input.  With `MAX_TOTAL_TERM_LEN = 2`
the terminal `xy` passes the capacity check
(`currentTermStart + operandNameSize - termPool <= MAX_TOTAL_TERM_LEN`, i.e.
`0 + 2 <= 2`) and the run succeeds, but the slot then holds three bytes —
the terminating NUL is written at pool index 2, one byte past the end of a
`char[2]` arena — instead of failing with `CapacityExceeded`.  A terminal
that strictly overflows (`xyz`) does fail with `CapacityExceeded`. -/
theorem thm_C9_bug :
    runSpec cfgC9 [['$', 'A', ' ', ':', '=', ' ', 'x', 'y', '\n']] =
      .ok stC9 ∧
    stC9.termPool.length = 3 ∧
    cfgC9.maxTotalTermLen < stC9.termPool.length ∧
    runSpec cfgC9 [['$', 'A', ' ', ':', '=', ' ', 'x', 'y', 'z', '\n']] =
      .error .CapacityExceeded := by
  refine ⟨by decide, by decide, by decide, by decide⟩

theorem getD_append_lt {α : Type} (l m : List α) (d : α) (i : Nat)
    (h : i < l.length) : (l ++ m).getD i d = l.getD i d := by
  induction l generalizing i with
  | nil => simp at h
  | cons a t ih =>
    cases i with
    | zero => rfl
    | succ j => simpa using ih j (by simp at h; omega)

theorem getD_append_len {α : Type} (l : List α) (a d : α) :
    (l ++ [a]).getD l.length d = a := by
  induction l with
  | nil => rfl
  | cons b t ih => simp only [List.cons_append, List.length_cons]; exact ih

theorem getD_set_self {α : Type} (l : List α) (i : Nat) (a d : α)
    (h : i < l.length) : (l.set i a).getD i d = a := by
  induction l generalizing i with
  | nil => simp at h
  | cons b t ih =>
    cases i with
    | zero => rfl
    | succ j => simpa using ih j (by simpa using h)

theorem getD_set_ne {α : Type} (l : List α) (i j : Nat) (a d : α)
    (h : ¬ j = i) : (l.set i a).getD j d = l.getD j d := by
  induction l generalizing i j with
  | nil => simp
  | cons b t ih =>
    cases i with
    | zero =>
      cases j with
      | zero => exact absurd rfl h
      | succ k => rfl
    | succ i2 =>
      cases j with
      | zero => rfl
      | succ k => simpa using ih i2 k (by omega)

theorem set_of_len_le {α : Type} (l : List α) (i : Nat) (a : α)
    (h : l.length ≤ i) : l.set i a = l := by
  induction l generalizing i with
  | nil => rfl
  | cons b t ih =>
    cases i with
    | zero => simp at h
    | succ j => simpa using ih j (by simpa using h)

/-- The name/index table invariant of claim C10: every allocated entry's
stored name starts with `$` and its `idx` field equals its position. -/
def ntOk (l : List NonTerminal) : Prop :=
  ∀ i, i < l.length →
    (l.getD i dfltNT).name.headD '\x00' = '$' ∧ (l.getD i dfltNT).idx = i

theorem ntOk_append (l : List NonTerminal) (e : NonTerminal) (h : ntOk l)
    (hn : e.name.headD '\x00' = '$') (hi : e.idx = l.length) :
    ntOk (l ++ [e]) := by
  intro i hlt
  rcases Nat.lt_or_ge i l.length with h1 | h1
  · rw [getD_append_lt l [e] dfltNT i h1]
    exact h i h1
  · have hle : i = l.length := by
      have := (List.length_append l [e]) ▸ hlt
      simp at this
      omega
    subst hle
    rw [getD_append_len]
    exact ⟨hn, hi⟩

theorem ntOk_set (l : List NonTerminal) (i : Nat) (e : NonTerminal)
    (h : ntOk l) (hn : e.name.headD '\x00' = '$') (hi : e.idx = i) :
    ntOk (l.set i e) := by
  rcases Nat.lt_or_ge i l.length with h1 | h1
  · intro j hlt
    rw [List.length_set] at hlt
    by_cases hji : j = i
    · subst hji
      rw [getD_set_self l j e dfltNT hlt]
      exact ⟨hn, hi⟩
    · rw [getD_set_ne l i j e dfltNT hji]
      exact h j hlt
  · rw [set_of_len_le l i e h1]
    exact h

theorem takeWhile_headD_dollar (rest : List Char)
    (h : rest.headD '\x00' = '$') :
    (rest.takeWhile tokenChar).headD '\x00' = '$' := by
  cases rest with
  | nil => exact absurd h (by decide)
  | cons c t =>
    have hc : c = '$' := h
    subst hc
    simp [List.takeWhile, tokenChar, isspaceC]

theorem resolveOperand_shape (cfg : Config) (s : PState) (tok r0 : List Char)
    (s1 : PState) (r1 : List Char) (ty : OperandType) (v : Int)
    (h : resolveOperand cfg s tok r0 = .ok (s1, r1, ty, v)) :
    s1.exprPool = s.exprPool ∧
    (s1.nonterms = s.nonterms ∨
     ∃ tk : List Char, tk.headD '\x00' = '$' ∧
       s1.nonterms = s.nonterms ++ [⟨tk, false, s.nonterms.length, 0⟩]) := by
  simp only [resolveOperand] at h
  split at h
  · split at h
    · exact absurd h (by simp)
    · split at h
      · simp only [Except.ok.injEq, Prod.mk.injEq] at h
        obtain ⟨h1, -, -, -⟩ := h
        subst h1
        exact ⟨rfl, Or.inl rfl⟩
      · split at h
        · simp only [Except.ok.injEq, Prod.mk.injEq] at h
          obtain ⟨h1, -, -, -⟩ := h
          subst h1
          refine ⟨rfl, Or.inr ⟨tok, ?_, rfl⟩⟩
          exact eq_of_beq (by assumption)
        · exact absurd h (by simp)
  · split at h
    · split at h
      · exact absurd h (by simp)
      · simp only [Except.ok.injEq, Prod.mk.injEq] at h
        obtain ⟨h1, -, -, -⟩ := h
        subst h1
        exact ⟨rfl, Or.inl rfl⟩
    · exact absurd h (by simp)

theorem parse_operand_shape (cfg : Config) (s : PState) (rest : List Char)
    (s1 : PState) (r1 : List Char) (ty : OperandType) (v : Int)
    (h : parse_operand cfg s rest = .ok (s1, r1, ty, v)) :
    s1.exprPool = s.exprPool ∧
    (s1.nonterms = s.nonterms ∨
     ∃ tk : List Char, tk.headD '\x00' = '$' ∧
       s1.nonterms = s.nonterms ++ [⟨tk, false, s.nonterms.length, 0⟩]) := by
  simp only [parse_operand] at h
  split at h
  · simp only [Except.ok.injEq, Prod.mk.injEq] at h
    obtain ⟨h1, -, -, -⟩ := h
    subst h1
    exact ⟨rfl, Or.inl rfl⟩
  · split at h
    · exact absurd h (by simp)
    · exact resolveOperand_shape cfg s _ _ s1 r1 ty v h

theorem ntOk_set_keep (l : List NonTerminal) (i : Nat) (e : NonTerminal)
    (h : ntOk l) (hn : e.name = (l.getD i dfltNT).name)
    (hi : e.idx = (l.getD i dfltNT).idx) : ntOk (l.set i e) := by
  rcases Nat.lt_or_ge i l.length with h1 | h1
  · refine ntOk_set l i e h ?_ ?_
    · rw [hn]
      exact (h i h1).1
    · rw [hi]
      exact (h i h1).2
  · rw [set_of_len_le l i e h1]
    exact h

theorem parse_operand_ntOk (cfg : Config) (s : PState) (rest : List Char)
    (s1 : PState) (r1 : List Char) (ty : OperandType) (v : Int)
    (h : parse_operand cfg s rest = .ok (s1, r1, ty, v))
    (hs : ntOk s.nonterms) : ntOk s1.nonterms := by
  obtain ⟨-, h2⟩ := parse_operand_shape cfg s rest s1 r1 ty v h
  rcases h2 with he | ⟨tk, htk, he⟩
  · rw [he]
    exact hs
  · rw [he]
    exact ntOk_append _ _ hs htk rfl

theorem resolveHeaderName_ntOk (cfg : Config) (s : PState) (tok : List Char)
    (s1 : PState) (i : Nat) (h : resolveHeaderName cfg s tok = .ok (s1, i))
    (hs : ntOk s.nonterms) (htok : tok.headD '\x00' = '$') :
    ntOk s1.nonterms ∧ s1.exprPool = s.exprPool ∧ s1.termPool = s.termPool := by
  simp only [resolveHeaderName] at h
  repeat' split at h
  all_goals simp at h
  all_goals obtain ⟨h1, -⟩ := h
  all_goals subst h1
  all_goals refine ⟨?_, rfl, rfl⟩
  · exact ntOk_set _ _ _ hs htok rfl
  · exact ntOk_append _ _ hs htok rfl

theorem parse_header_ntOk (cfg : Config) (s : PState) (rest : List Char)
    (s1 : PState) (r1 : List Char) (i : Nat)
    (h : parse_header cfg s rest = .ok (s1, r1, i)) (hs : ntOk s.nonterms) :
    ntOk s1.nonterms ∧ s1.exprPool = s.exprPool ∧ s1.termPool = s.termPool := by
  have hdollar : rest.headD '\x00' = '$' := by
    simp only [parse_header] at h
    by_cases hc : (!(rest.headD '\x00' == '$')) = true
    · rw [if_pos hc] at h
      exact absurd h (by simp)
    · have hb2 : (rest.headD '\x00' == '$') = true := by
        revert hc
        cases rest.headD '\x00' == '$' <;> simp
      exact eq_of_beq hb2
  simp only [parse_header] at h
  rw [if_neg (by simp only [hdollar]; decide)] at h
  repeat' split at h
  all_goals try exact Except.noConfusion h
  all_goals simp at h
  all_goals obtain ⟨h1, -, -⟩ := h
  all_goals subst h1
  all_goals exact resolveHeaderName_ntOk cfg s _ _ _ (by assumption) hs (takeWhile_headD_dollar rest hdollar)

theorem starStep_state (cfg : Config) (sB : PState) (rB : List Char)
    (opCode : OperatorType) (cp ci p : Nat) (s2 : PState) (r2 : List Char)
    (c2 : Nat) (h : starStep cfg sB rB opCode cp ci p = .ok (s2, r2, c2)) :
    s2.nonterms = sB.nonterms ∧ s2.termPool = sB.termPool ∧
    (s2.exprPool.length = sB.exprPool.length ∧ c2 = cp ∨
     s2.exprPool.length = sB.exprPool.length + 1 ∧ c2 + 1 = s2.exprPool.length) ∧
    (r2 = rB ∨ r2 = (parse_operator rB).2) := by
  simp only [starStep] at h
  split at h
  · split at h
    · simp only [Except.ok.injEq, Prod.mk.injEq] at h
      obtain ⟨h1, h2, h3⟩ := h
      subst h1
      refine ⟨rfl, rfl, Or.inr ⟨by simp, ?_⟩, Or.inr h2.symm⟩
      subst h3
      simp
    · exact Except.noConfusion h
  · simp only [Except.ok.injEq, Prod.mk.injEq] at h
    obtain ⟨h1, h2, h3⟩ := h
    subst h1
    subst h3
    exact ⟨rfl, rfl, Or.inl ⟨rfl, rfl⟩, Or.inl h2.symm⟩

theorem parse_bodyLoop_ntOk (cfg : Config) :
    ∀ (fuel : Nat) (s : PState) (rest : List Char) (cp ci p : Nat)
      (s1 : PState) (r1 : List Char) (p1 : Nat),
      parse_bodyLoop cfg fuel s rest cp ci p = .ok (s1, r1, p1) →
      ntOk s.nonterms → ntOk s1.nonterms := by
  intro fuel
  induction fuel with
  | zero =>
    intro s rest cp ci p s1 r1 p1 h hs
    exact Except.noConfusion h
  | succ f ih =>
    intro s rest cp ci p s1 r1 p1 h hs
    cases hop : parse_operand cfg s rest with
    | error e =>
      simp only [parse_bodyLoop, hop] at h
      exact Except.noConfusion h
    | ok t =>
      obtain ⟨sA, rA, ty, v⟩ := t
      simp only [parse_bodyLoop, hop] at h
      have hsA : ntOk sA.nonterms :=
        parse_operand_ntOk cfg s rest sA rA ty v hop hs
      by_cases hty : (ty == OperandType.NOTHING) = true
      · rw [if_pos hty] at h
        simp only [Except.ok.injEq, Prod.mk.injEq] at h
        obtain ⟨h1, -, -⟩ := h
        subst h1
        exact hsA
      · rw [if_neg hty] at h
        cases hpo : parse_operator rA with
        | mk opCode rB =>
          simp only [hpo] at h
          cases hst : starStep cfg (writeCurrent sA cp opCode v ty) rB opCode cp ci p with
          | error e =>
            simp only [hst] at h
            exact Except.noConfusion h
          | ok t2 =>
            obtain ⟨s2, r2, cur1⟩ := t2
            simp only [hst] at h
            by_cases hcap : s2.exprPool.length < cfg.maxNestedExprs
            · rw [if_pos hcap] at h
              have hs2 : ntOk s2.nonterms := by
                have hns := (starStep_state cfg _ rB opCode cp ci p s2 r2 cur1 hst).1
                rw [hns]
                exact hsA
              exact ih _ _ _ _ _ _ _ _ h hs2
            · rw [if_neg hcap] at h
              exact Except.noConfusion h

theorem parse_body_ntOk (cfg : Config) (s : PState) (rest : List Char)
    (idx : Nat) (s2 : PState) (r2 : List Char)
    (h : parse_body cfg s rest idx = .ok (s2, r2)) (hs : ntOk s.nonterms) :
    ntOk s2.nonterms := by
  simp only [parse_body] at h
  by_cases hcap : s.exprPool.length < cfg.maxNestedExprs
  · rw [if_pos hcap] at h
    cases hloop : parse_bodyLoop cfg (rest.length + 1) (bodyInit s idx) rest
        s.exprPool.length s.exprPool.length s.exprPool.length with
    | error e =>
      simp only [hloop] at h
      exact Except.noConfusion h
    | ok t =>
      obtain ⟨sL, rL, pL⟩ := t
      simp only [hloop] at h
      split at h
      · simp only [Except.ok.injEq, Prod.mk.injEq] at h
        obtain ⟨h1, -⟩ := h
        subst h1
        have hinit : ntOk (bodyInit s idx).nonterms :=
          ntOk_set_keep _ _ _ hs rfl rfl
        have hres : ntOk sL.nonterms :=
          parse_bodyLoop_ntOk cfg _ _ _ _ _ _ sL rL pL hloop hinit
        exact hres
      · exact Except.noConfusion h
  · rw [if_neg hcap] at h
    exact Except.noConfusion h

theorem parse_regexLine_ntOk (cfg : Config) (s : PState) (line : List Char)
    (s1 : PState) (h : parse_regexLine cfg s line = .ok s1)
    (hs : ntOk s.nonterms) : ntOk s1.nonterms := by
  simp only [parse_regexLine] at h
  split at h
  · simp only [Except.ok.injEq] at h
    subst h
    exact hs
  · split at h
    · simp only [Except.ok.injEq] at h
      subst h
      exact hs
    · cases hhd : parse_header cfg s (skipAllSpace line) with
      | error e =>
        simp only [hhd] at h
        exact Except.noConfusion h
      | ok t =>
        obtain ⟨sH, rH, iH⟩ := t
        simp only [hhd] at h
        cases hbd : parse_body cfg sH rH iH with
        | error e =>
          simp only [hbd] at h
          exact Except.noConfusion h
        | ok t2 =>
          obtain ⟨sB, rB⟩ := t2
          simp only [hbd] at h
          simp only [Except.ok.injEq] at h
          subst h
          have hH : ntOk sH.nonterms :=
            (parse_header_ntOk cfg s _ sH rH iH hhd hs).1
          have hB : ntOk sB.nonterms :=
            parse_body_ntOk cfg sH rH iH sB rB hbd hH
          exact ntOk_set_keep _ _ _ hB rfl rfl

theorem parseLines_ntOk (cfg : Config) :
    ∀ (lines : List (List Char)) (s s1 : PState),
      parseLines cfg s lines = .ok s1 → ntOk s.nonterms → ntOk s1.nonterms := by
  intro lines
  induction lines with
  | nil =>
    intro s s1 h hs
    simp only [parseLines, Except.ok.injEq] at h
    subst h
    exact hs
  | cons l ls ih =>
    intro s s1 h hs
    simp only [parseLines] at h
    cases hl : parse_regexLine cfg s l with
    | error e =>
      simp only [hl] at h
      exact Except.noConfusion h
    | ok sM =>
      simp only [hl] at h
      exact ih sM s1 h (parse_regexLine_ntOk cfg s l sM hl hs)

/-- Claim C10.  In every successful run, every non-terminal record of the
final table — whether created by a header or as a forward-reference
placeholder — stores a name whose first character is the `$` of its source
spelling, and its `idx` field equals its position in the table. -/
theorem thm_C10 (cfg : Config) (lines : List (List Char)) (s : PState)
    (h : runSpec cfg lines = .ok s) (i : Nat) (hi : i < s.nonterms.length) :
    (s.nonterms.getD i dfltNT).name.headD '\x00' = '$' ∧
    (s.nonterms.getD i dfltNT).idx = i := by
  have h0 : ntOk initState.nonterms := by
    intro j hj
    simp [initState] at hj
  exact parseLines_ntOk cfg lines initState s h h0 i hi

/-- Claim C10, witness: the invariant instantiated on the run of
`$A := $B`, whose second record is a placeholder created by a reference. -/
theorem wit_C10 :
    (stW10.nonterms.getD 1 dfltNT).name.headD '\x00' = '$' ∧
    (stW10.nonterms.getD 1 dfltNT).idx = 1 :=
  thm_C10 defaultConfig [['$', 'A', ' ', ':', '=', ' ', '$', 'B', '\n']]
    stW10 (by decide) 1 (by decide)

theorem resolveOperand_ty (cfg : Config) (s : PState) (tok r0 : List Char)
    (s1 : PState) (r1 : List Char) (ty : OperandType) (v : Int)
    (h : resolveOperand cfg s tok r0 = .ok (s1, r1, ty, v)) :
    ty = .NON_TERMINAL ∨ ty = .TERMINAL := by
  simp only [resolveOperand] at h
  repeat' split at h
  all_goals try exact Except.noConfusion h
  all_goals simp only [Except.ok.injEq, Prod.mk.injEq] at h
  all_goals obtain ⟨-, -, h3, -⟩ := h
  all_goals subst h3
  · exact Or.inl rfl
  · exact Or.inl rfl
  · exact Or.inr rfl

theorem parse_operand_nothing (cfg : Config) (s : PState) (rest : List Char)
    (s1 : PState) (r1 : List Char) (v : Int)
    (h : parse_operand cfg s rest = .ok (s1, r1, .NOTHING, v)) :
    s1 = s ∧ r1 = skipSpaceNotNl rest ∧ v = -1 ∧
    ((skipSpaceNotNl rest).headD '\x00' = '\x00' ∨
     (skipSpaceNotNl rest).headD '\x00' = '\n') := by
  simp only [parse_operand] at h
  split at h
  · simp only [Except.ok.injEq, Prod.mk.injEq] at h
    obtain ⟨h1, h2, -, h4⟩ := h
    refine ⟨h1.symm, h2.symm, h4.symm, ?_⟩
    rename_i hcond
    rcases Bool.or_eq_true_iff.mp hcond with hx | hx
    · exact Or.inl (eq_of_beq hx)
    · exact Or.inr (eq_of_beq hx)
  · split at h
    · exact Except.noConfusion h
    · rcases resolveOperand_ty cfg s _ _ s1 r1 .NOTHING v h with h3 | h3 <;>
        exact OperandType.noConfusion h3

theorem writeCurrent_len (s : PState) (cp : Nat) (a : OperatorType) (b : Int)
    (c : OperandType) :
    (writeCurrent s cp a b c).exprPool.length = s.exprPool.length := by
  simp [writeCurrent]

theorem allocNext_len (s : PState) (c : Nat) :
    (allocNext s c).exprPool.length = s.exprPool.length + 1 := by
  simp [allocNext]

theorem parse_bodyLoop_exit (cfg : Config) :
    ∀ (fuel : Nat) (s : PState) (rest : List Char) (cp ci p : Nat)
      (s1 : PState) (r1 : List Char) (p1 : Nat),
      parse_bodyLoop cfg fuel s rest cp ci p = .ok (s1, r1, p1) →
      cp < s.exprPool.length → p < s.exprPool.length →
      s.exprPool.length ≤ s1.exprPool.length ∧ p1 < s1.exprPool.length ∧
      (parse_operand cfg s rest = .ok (s, skipSpaceNotNl rest, .NOTHING, -1) ∧
         s1 = s ∧ p1 = p ∨
       p1 + 2 ≤ s1.exprPool.length) := by
  intro fuel
  induction fuel with
  | zero =>
    intro s rest cp ci p s1 r1 p1 h hcp hp
    exact Except.noConfusion h
  | succ f ih =>
    intro s rest cp ci p s1 r1 p1 h hcp hp
    cases hop : parse_operand cfg s rest with
    | error e =>
      simp only [parse_bodyLoop, hop] at h
      exact Except.noConfusion h
    | ok t =>
      obtain ⟨sA, rA, ty, v⟩ := t
      simp only [parse_bodyLoop, hop] at h
      by_cases hty : (ty == OperandType.NOTHING) = true
      · rw [if_pos hty] at h
        simp only [Except.ok.injEq, Prod.mk.injEq] at h
        obtain ⟨h1, h2, h3⟩ := h
        have htyeq : ty = OperandType.NOTHING := eq_of_beq hty
        subst htyeq
        obtain ⟨hA, hR, hV, -⟩ := parse_operand_nothing cfg s rest sA rA v hop
        subst hA
        subst h1
        subst h3
        refine ⟨Nat.le_refl _, hp, Or.inl ⟨?_, rfl, rfl⟩⟩
        rw [hR, hV]
      · rw [if_neg hty] at h
        cases hpo : parse_operator rA with
        | mk opCode rB =>
          simp only [hpo] at h
          cases hst : starStep cfg (writeCurrent sA cp opCode v ty) rB
              opCode cp ci p with
          | error e =>
            simp only [hst] at h
            exact Except.noConfusion h
          | ok t2 =>
            obtain ⟨s2, r2, cur1⟩ := t2
            simp only [hst] at h
            by_cases hcap : s2.exprPool.length < cfg.maxNestedExprs
            · rw [if_pos hcap] at h
              have hApool : sA.exprPool = s.exprPool :=
                (parse_operand_shape cfg s rest sA rA ty v hop).1
              have hwlen : (writeCurrent sA cp opCode v ty).exprPool.length =
                  s.exprPool.length := by
                rw [writeCurrent_len, hApool]
              obtain ⟨-, -, hlen2, -⟩ :=
                starStep_state cfg _ rB opCode cp ci p s2 r2 cur1 hst
              have hcur1 : cur1 < s2.exprPool.length ∧
                  s.exprPool.length ≤ s2.exprPool.length := by
                rcases hlen2 with ⟨he, hc⟩ | ⟨he, hc⟩
                · rw [he, hwlen]
                  exact ⟨hc ▸ hcp, Nat.le_refl _⟩
                · constructor
                  · omega
                  · rw [he, hwlen]
                    omega
              have hih := ih (allocNext s2 cur1) r2 s2.exprPool.length
                s2.exprPool.length cur1 s1 r1 p1 h
                (by rw [allocNext_len]; omega)
                (by rw [allocNext_len]; omega)
              obtain ⟨hle, hp1, hdisj⟩ := hih
              rw [allocNext_len] at hle
              refine ⟨by omega, hp1, Or.inr ?_⟩
              rcases hdisj with ⟨-, hs1, hp1e⟩ | hge
              · rw [hs1, allocNext_len]
                omega
              · exact hge
            · rw [if_neg hcap] at h
              exact Except.noConfusion h

/-- Claim C7, amended.  For every definition body whose parse completes
successfully — counting the defensive operator-kind check itself among the
fatal aborts, since `cex_C7` shows it can fire on plain user input — the
loop exits with the most recently completed node's operator kind `End`
(`NO_OP`) or `ZeroOrMore`, exactly the single most recently allocated
speculative node is released (the result pool is one node shorter than the
loop-exit pool, and the released slot, at the exit pool's last position, is
strictly beyond `prevIdx`), and the last completed node's second operand is
set to `Absent`.  The two head hypotheses say the body is not empty, which
`parse_header` guarantees for every body reached from a line. -/
theorem thm_C7_amended (cfg : Config) (s : PState) (rest : List Char)
    (idx : Nat) (s2 : PState) (r2 : List Char)
    (hok : parse_body cfg s rest idx = .ok (s2, r2))
    (h1 : ¬ (skipSpaceNotNl rest).headD '\x00' = '\x00')
    (h2 : ¬ (skipSpaceNotNl rest).headD '\x00' = '\n') :
    ∃ s1 r1 p1,
      parse_bodyLoop cfg (rest.length + 1) (bodyInit s idx) rest
        s.exprPool.length s.exprPool.length s.exprPool.length =
        .ok (s1, r1, p1) ∧
      ((s1.exprPool.getD p1 dfltE).type = .NO_OP ∨
       (s1.exprPool.getD p1 dfltE).type = .ZERO_OR_MORE) ∧
      s2.exprPool.length + 1 = s1.exprPool.length ∧
      p1 + 2 ≤ s1.exprPool.length ∧
      (s2.exprPool.getD p1 dfltE).op2 = -1 ∧
      (s2.exprPool.getD p1 dfltE).op2Type = .NOTHING := by
  simp only [parse_body] at hok
  by_cases hcap : s.exprPool.length < cfg.maxNestedExprs
  · rw [if_pos hcap] at hok
    cases hloop : parse_bodyLoop cfg (rest.length + 1) (bodyInit s idx) rest
        s.exprPool.length s.exprPool.length s.exprPool.length with
    | error e =>
      simp only [hloop] at hok
      exact Except.noConfusion hok
    | ok t =>
      obtain ⟨sL, rL, pL⟩ := t
      simp only [hloop] at hok
      split at hok
      next hcheck =>
        simp only [Except.ok.injEq, Prod.mk.injEq] at hok
        obtain ⟨hs2, -⟩ := hok
        subst hs2
        have hexit := parse_bodyLoop_exit cfg (rest.length + 1) _ rest
          s.exprPool.length s.exprPool.length s.exprPool.length sL rL pL hloop
          (by simp [bodyInit]) (by simp [bodyInit])
        obtain ⟨hle, hpl, hdisj⟩ := hexit
        have hright : pL + 2 ≤ sL.exprPool.length := by
          rcases hdisj with ⟨hopn, -, -⟩ | hr
          · obtain ⟨-, -, -, hcond⟩ :=
              parse_operand_nothing cfg _ rest _ _ _ hopn
            rcases hcond with hx | hx
            · exact absurd hx h1
            · exact absurd hx h2
          · exact hr
        refine ⟨sL, rL, pL, rfl, ?_, ?_, hright, ?_, ?_⟩
        · rcases Bool.or_eq_true_iff.mp hcheck with hx | hx
          · exact Or.inl (eq_of_beq hx)
          · exact Or.inr (eq_of_beq hx)
        · simp only [List.length_set, List.length_dropLast]
          omega
        · rw [getD_set_self _ _ _ _ (by simp only [List.length_dropLast]; omega)]
        · rw [getD_set_self _ _ _ _ (by simp only [List.length_dropLast]; omega)]
      next =>
        exact Except.noConfusion hok
  · rw [if_neg hcap] at hok
    exact Except.noConfusion hok

/-- Claim C7, witness: the amended theorem applied to the body `x` of a line
`$A := x` (arenas holding the single incomplete non-terminal `$A`). -/
theorem wit_C7 :
    parse_body defaultConfig sW7 ['x', '\n'] 0 = .ok (stW7, ['\n']) ∧
    (∃ s1 r1 p1,
      parse_bodyLoop defaultConfig (['x', '\n'].length + 1) (bodyInit sW7 0)
        ['x', '\n'] sW7.exprPool.length sW7.exprPool.length
        sW7.exprPool.length = .ok (s1, r1, p1) ∧
      ((s1.exprPool.getD p1 dfltE).type = .NO_OP ∨
       (s1.exprPool.getD p1 dfltE).type = .ZERO_OR_MORE) ∧
      stW7.exprPool.length + 1 = s1.exprPool.length ∧
      p1 + 2 ≤ s1.exprPool.length ∧
      (stW7.exprPool.getD p1 dfltE).op2 = -1 ∧
      (stW7.exprPool.getD p1 dfltE).op2Type = .NOTHING) :=
  ⟨by decide,
   thm_C7_amended defaultConfig sW7 ['x', '\n'] 0 stW7 ['\n']
     (by decide) (by decide) (by decide)⟩

theorem takeWhile_append_all (p : Char → Bool) (l r : List Char)
    (h : ∀ c ∈ l, p c = true) :
    (l ++ r).takeWhile p = l ++ r.takeWhile p := by
  induction l with
  | nil => rfl
  | cons c t ih =>
    have hc : p c = true := h c (List.mem_cons_self c t)
    simp only [List.cons_append, List.takeWhile_cons, hc, if_true]
    rw [ih (fun d hd => h d (List.mem_cons_of_mem c hd))]

theorem dropWhile_append_all (p : Char → Bool) (l r : List Char)
    (h : ∀ c ∈ l, p c = true) :
    (l ++ r).dropWhile p = r.dropWhile p := by
  induction l with
  | nil => rfl
  | cons c t ih =>
    have hc : p c = true := h c (List.mem_cons_self c t)
    simp only [List.cons_append, List.dropWhile_cons, hc, if_true]
    exact ih (fun d hd => h d (List.mem_cons_of_mem c hd))

theorem getD_mem (l : List Char) (i : Nat) (d : Char) (h : i < l.length) :
    l.getD i d ∈ l := by
  induction l generalizing i with
  | nil => simp at h
  | cons c t ih =>
    cases i with
    | zero => exact List.mem_cons_self c t
    | succ j =>
      exact List.mem_cons_of_mem c (ih j (by simp at h; omega))

theorem getLastD_append_single (l : List Char) (x d : Char) :
    (l ++ [x]).getLastD d = x :=
  List.getLastD_concat d x l

theorem memcpy2Aux_no_escape (l r : List Char) (h : ∀ c ∈ l, ¬ c = '@') :
    memcpy2Aux (l ++ r) l.length = .ok (l, 0) := by
  induction l with
  | nil => rfl
  | cons c t ih =>
    have hc : (c == '@') = false :=
      beq_eq_false_iff_ne.mpr (h c (List.mem_cons_self c t))
    simp only [List.cons_append, List.length_cons, memcpy2Aux, List.headD_cons,
      hc, Bool.false_eq_true, if_false, List.tail_cons]
    rw [ih (fun d hd => h d (List.mem_cons_of_mem c hd))]

theorem resolveOperand_sides (cfg : Config) (s : PState) (tok r1a r1b : List Char)
    (hat : ∀ c ∈ tok, ¬ c = '@') (hd : ¬ tok = ['$']) :
    ((cfg.maxNonterms ≤ s.nonterms.length + 1 ∨
      cfg.maxTotalTermLen < s.termPool.length + tok.length) ∧
     resolveOperand cfg s tok r1a = .error .CapacityExceeded ∧
     resolveOperand cfg s tok r1b = .error .CapacityExceeded) ∨
    (∃ s1 ty v, ¬ ty = OperandType.NOTHING ∧
     resolveOperand cfg s tok r1a = .ok (s1, r1a, ty, v) ∧
     resolveOperand cfg s tok r1b = .ok (s1, r1b, ty, v)) := by
  by_cases hds : (tok.headD '\x00' == '$') = true
  · have hn1 : (tok.length == 1) = false := by
      apply beq_eq_false_iff_ne.mpr
      intro hlen
      apply hd
      cases tok with
      | nil => simp at hlen
      | cons c t =>
        cases t with
        | nil =>
          have hc : c = '$' := eq_of_beq hds
          rw [hc]
        | cons d u => simp at hlen
    cases hf : s.nonterms.findIdx? (fun nt => memcmpName nt.name tok tok.length) with
    | some i =>
      right
      refine ⟨s, .NON_TERMINAL, (i : Int), by decide, ?_, ?_⟩
      all_goals simp only [resolveOperand]
      all_goals rw [if_pos hds, if_neg (by simp [hn1])]
      all_goals simp only [hf]
    | none =>
      by_cases hcap : s.nonterms.length + 1 < cfg.maxNonterms
      · right
        refine ⟨{ s with nonterms :=
            s.nonterms ++ [⟨tok, false, s.nonterms.length, 0⟩] },
          .NON_TERMINAL, (s.nonterms.length : Int), by decide, ?_, ?_⟩
        all_goals simp only [resolveOperand]
        all_goals rw [if_pos hds, if_neg (by simp [hn1])]
        all_goals simp only [hf]
        all_goals rw [if_pos hcap]
      · left
        refine ⟨Or.inl (by omega), ?_, ?_⟩
        all_goals simp only [resolveOperand]
        all_goals rw [if_pos hds, if_neg (by simp [hn1])]
        all_goals simp only [hf]
        all_goals rw [if_neg hcap]
  · by_cases hcap : s.termPool.length + tok.length ≤ cfg.maxTotalTermLen
    · have hm1 := memcpy2Aux_no_escape tok r1a hat
      have hm2 := memcpy2Aux_no_escape tok r1b hat
      right
      refine ⟨{ s with termPool :=
          s.termPool ++ ((tok ++ ['\x00']).set (tok.length - 0) '\x00') },
        .TERMINAL, (s.termPool.length : Int), by decide, ?_, ?_⟩
      · simp only [resolveOperand]
        rw [if_neg hds, if_pos hcap]
        simp only [hm1]
      · simp only [resolveOperand]
        rw [if_neg hds, if_pos hcap]
        simp only [hm2]
    · left
      refine ⟨Or.inr (by omega), ?_, ?_⟩
      all_goals simp only [resolveOperand]
      all_goals rw [if_neg hds, if_neg hcap]

theorem headD_append (l r : List Char) (d : Char) (h : ¬ l = []) :
    (l ++ r).headD d = l.headD d := by
  cases l with
  | nil => exact absurd rfl h
  | cons c t => rfl

theorem skip_id_of_head (l : List Char) (h : ¬ l = [])
    (hh : isspaceC (l.headD '\x00') = false) : skipSpaceNotNl l = l := by
  cases l with
  | nil => exact absurd rfl h
  | cons c t =>
    simp only [List.headD_cons] at hh
    simp [skipSpaceNotNl, List.dropWhile_cons, hh]

theorem operand_star_sides (cfg : Config) (s : PState) (term : List Char)
    (hne : ¬ term = []) (htok : ∀ c ∈ term, tokenChar c = true)
    (hat : '@' ∉ term) (hlast : ¬ term.getLastD '\x00' = '*')
    (hh1 : ¬ term.headD '\x00' = '|') (hh2 : ¬ term.headD '\x00' = '*')
    (hds : ¬ term = ['$']) :
    ((cfg.maxNonterms ≤ s.nonterms.length + 1 ∨
      cfg.maxTotalTermLen < s.termPool.length + term.length) ∧
     parse_operand cfg s (term ++ ['*', '\n']) = .error .CapacityExceeded ∧
     parse_operand cfg s (term ++ [' ', '*', '\n']) = .error .CapacityExceeded) ∨
    (∃ s1 ty v, ¬ ty = OperandType.NOTHING ∧
     parse_operand cfg s (term ++ ['*', '\n']) = .ok (s1, ['*', '\n'], ty, v) ∧
     parse_operand cfg s (term ++ [' ', '*', '\n']) = .ok (s1, [' ', '*', '\n'], ty, v)) := by
  have hmem : term.headD '\x00' ∈ term := by
    cases term with
    | nil => exact absurd rfl hne
    | cons c t => exact List.mem_cons_self c t
  have hhtok : tokenChar (term.headD '\x00') = true := htok _ hmem
  have hh00 : (term.headD '\x00' == '\x00') = false := by
    simp only [tokenChar, Bool.and_eq_true, Bool.not_eq_true'] at hhtok
    exact hhtok.1
  have hhsp : isspaceC (term.headD '\x00') = false := by
    simp only [tokenChar, Bool.and_eq_true, Bool.not_eq_true'] at hhtok
    exact hhtok.2
  have hhnl : (term.headD '\x00' == '\n') = false := by
    apply beq_eq_false_iff_ne.mpr
    intro hcc
    rw [hcc] at hhsp
    exact absurd hhsp (by decide)
  have hhq : (term.headD '\x00' == '|') = false := beq_eq_false_iff_ne.mpr hh1
  have hhst : (term.headD '\x00' == '*') = false := beq_eq_false_iff_ne.mpr hh2
  have hlen0 : 0 < term.length := List.length_pos.mpr hne
  have hskip1 : skipSpaceNotNl (term ++ ['*', '\n']) = term ++ ['*', '\n'] :=
    skip_id_of_head _ (by simp [hne]) (by rw [headD_append _ _ _ hne]; exact hhsp)
  have hskip2 : skipSpaceNotNl (term ++ [' ', '*', '\n']) = term ++ [' ', '*', '\n'] :=
    skip_id_of_head _ (by simp [hne]) (by rw [headD_append _ _ _ hne]; exact hhsp)
  have hhead1 : (term ++ ['*', '\n']).headD '\x00' = term.headD '\x00' :=
    headD_append _ _ _ hne
  have hhead2 : (term ++ [' ', '*', '\n']).headD '\x00' = term.headD '\x00' :=
    headD_append _ _ _ hne
  have hscan1 : scanOperandToken (term ++ ['*', '\n']) = (term, ['*', '\n']) := by
    simp only [scanOperandToken,
      takeWhile_append_all tokenChar term ['*', '\n'] htok,
      dropWhile_append_all tokenChar term ['*', '\n'] htok]
    have htw : List.takeWhile tokenChar ['*', '\n'] = ['*'] := by decide
    have hdw : List.dropWhile tokenChar ['*', '\n'] = ['\n'] := by decide
    rw [htw, hdw]
    have hlastd : (term ++ ['*']).getLastD '\x00' = '*' := getLastD_append_single _ _ _
    have hlen : (term ++ ['*']).length - 2 = term.length - 1 := by simp
    have hgetd : ((term ++ ['*']).getD ((term ++ ['*']).length - 2) '\x00' == '@') = false := by
      rw [hlen, getD_append_lt term ['*'] '\x00' (term.length - 1) (by omega)]
      apply beq_eq_false_iff_ne.mpr
      intro hq
      apply hat
      rw [← hq]
      exact getD_mem term (term.length - 1) '\x00' (by omega)
    rw [hlastd, hgetd]
    simp [List.dropLast_concat]
  have hscan2 : scanOperandToken (term ++ [' ', '*', '\n']) = (term, [' ', '*', '\n']) := by
    simp only [scanOperandToken,
      takeWhile_append_all tokenChar term [' ', '*', '\n'] htok,
      dropWhile_append_all tokenChar term [' ', '*', '\n'] htok]
    have htw : List.takeWhile tokenChar [' ', '*', '\n'] = [] := by decide
    have hdw : List.dropWhile tokenChar [' ', '*', '\n'] = [' ', '*', '\n'] := by decide
    rw [htw, hdw, List.append_nil]
    have hlastd2 : (term.getLastD '\x00' == '*') = false := beq_eq_false_iff_ne.mpr hlast
    rw [hlastd2]
    simp
  have hfold1 : parse_operand cfg s (term ++ ['*', '\n']) =
      resolveOperand cfg s term ['*', '\n'] := by
    simp only [parse_operand, hskip1, hhead1, hh00, hhnl, hhq, hhst, hscan1,
      Bool.or_self, Bool.false_eq_true, if_false]
  have hfold2 : parse_operand cfg s (term ++ [' ', '*', '\n']) =
      resolveOperand cfg s term [' ', '*', '\n'] := by
    simp only [parse_operand, hskip2, hhead2, hh00, hhnl, hhq, hhst, hscan2,
      Bool.or_self, Bool.false_eq_true, if_false]
  have hat2 : ∀ x ∈ term, ¬ x = '@' := by
    intro x hx hxe
    rw [hxe] at hx
    exact hat hx
  rcases resolveOperand_sides cfg s term ['*', '\n'] [' ', '*', '\n'] hat2 hds with
    ⟨hb, he1, he2⟩ | ⟨s1, ty, v, hty, ho1, ho2⟩
  · exact Or.inl ⟨hb, by rw [hfold1]; exact he1, by rw [hfold2]; exact he2⟩
  · exact Or.inr ⟨s1, ty, v, hty, by rw [hfold1]; exact ho1, by rw [hfold2]; exact ho2⟩

theorem parse_operand_nl (cfg : Config) (sX : PState) :
    parse_operand cfg sX ['\n'] = .ok (sX, ['\n'], .NOTHING, -1) := rfl

theorem parse_bodyLoop_nl (cfg : Config) (f : Nat) (sX : PState) (cp ci p : Nat) :
    parse_bodyLoop cfg (f + 1) sX ['\n'] cp ci p = .ok (sX, ['\n'], p) := by
  simp only [parse_bodyLoop, parse_operand_nl]
  rw [if_pos (by decide)]

theorem runSpec_single (cfg : Config) (l : List Char) :
    runSpec cfg [l] = parse_regexLine cfg initState l := by
  simp only [runSpec, parseLines]
  cases hx : parse_regexLine cfg initState l with
  | error e => rfl
  | ok s1 => rfl

theorem header_A_line (body : List Char)
    (hb : tokenChar (body.headD '\x00') = true) :
    parse_header defaultConfig initState
      (['$', 'A', ' ', ':', '=', ' '] ++ body) = .ok (sH8, body, 0) := by
  have hbne : ¬ body = [] := by
    intro he
    rw [he] at hb
    exact absurd hb (by decide)
  have hbsp : isspaceC (body.headD '\x00') = false := by
    simp only [tokenChar, Bool.and_eq_true, Bool.not_eq_true'] at hb
    exact hb.2
  have hb00 : (body.headD '\x00' == '\x00') = false := by
    simp only [tokenChar, Bool.and_eq_true, Bool.not_eq_true'] at hb
    exact hb.1
  have hbnl : (body.headD '\x00' == '\n') = false := by
    apply beq_eq_false_iff_ne.mpr
    intro hcc
    rw [hcc] at hbsp
    exact absurd hbsp (by decide)
  have hskipb : skipSpaceNotNl body = body := skip_id_of_head body hbne hbsp
  have htk : List.takeWhile tokenChar ('$' :: 'A' :: ' ' :: ':' :: '=' :: ' ' :: body) =
      ['$', 'A'] := by
    simp [List.takeWhile_cons, (by decide : tokenChar '$' = true),
      (by decide : tokenChar 'A' = true), (by decide : tokenChar ' ' = false)]
  have hdw : List.dropWhile tokenChar ('$' :: 'A' :: ' ' :: ':' :: '=' :: ' ' :: body) =
      ' ' :: ':' :: '=' :: ' ' :: body := by
    simp [List.dropWhile_cons, (by decide : tokenChar '$' = true),
      (by decide : tokenChar 'A' = true), (by decide : tokenChar ' ' = false)]
  have hsa : skipAllSpace (' ' :: ':' :: '=' :: ' ' :: body) =
      ':' :: '=' :: ' ' :: body := by
    simp [skipAllSpace, List.dropWhile_cons, (by decide : isspaceC ' ' = true),
      (by decide : isspaceC ':' = false)]
  have hsn : skipSpaceNotNl (' ' :: body) = body := by
    simp only [skipSpaceNotNl, List.dropWhile_cons,
      (by decide : (isspaceC ' ' && !(' ' == '\n')) = true), if_true]
    exact hskipb
  simp only [List.cons_append, List.nil_append, parse_header, htk, hdw, hsa, hsn,
    List.headD_cons]
  rw [if_neg (by decide)]
  rw [if_neg (by decide)]
  rw [if_neg (by decide)]
  rw [if_neg (by decide)]
  simp only [show resolveHeaderName defaultConfig initState ['$', 'A'] =
      Except.ok (sH8, 0) from rfl]
  rw [if_neg (by
    simp only [Bool.or_eq_true, not_or]
    exact ⟨fun hx => absurd (beq_iff_eq.mpr hx) (by rw [hb00]; exact Bool.false_ne_true),
           fun hx => absurd (beq_iff_eq.mpr hx) (by rw [hbnl]; exact Bool.false_ne_true)⟩)]

theorem body_star_eq (term : List Char)
    (hne : ¬ term = []) (htok : ∀ c ∈ term, tokenChar c = true)
    (hat : '@' ∉ term) (hlast : ¬ term.getLastD '\x00' = '*')
    (hh1 : ¬ term.headD '\x00' = '|') (hh2 : ¬ term.headD '\x00' = '*')
    (hds : ¬ term = ['$']) :
    parse_body defaultConfig sH8 (term ++ ['*', '\n']) 0 =
    parse_body defaultConfig sH8 (term ++ [' ', '*', '\n']) 0 := by
  have hfuel1 : (term ++ ['*', '\n']).length + 1 = (term.length + 2) + 1 := by simp
  have hfuel2 : (term ++ [' ', '*', '\n']).length + 1 = (term.length + 3) + 1 := by
    simp
  simp only [parse_body]
  rw [if_pos (by decide : sH8.exprPool.length < defaultConfig.maxNestedExprs)]
  rw [if_pos (by decide : sH8.exprPool.length < defaultConfig.maxNestedExprs)]
  rw [hfuel1, hfuel2]
  rcases operand_star_sides defaultConfig (bodyInit sH8 0) term hne htok hat hlast
      hh1 hh2 hds with ⟨-, he1, he2⟩ | ⟨s1, ty, v, hty, ho1, ho2⟩
  · simp only [parse_bodyLoop, he1, he2]
  · simp only [parse_bodyLoop, ho1, ho2]
    have hcond : ¬ ((ty == OperandType.NOTHING) = true) := fun hx => hty (eq_of_beq hx)
    rw [if_neg hcond, if_neg hcond]
    have hpo1 : parse_operator ['*', '\n'] = (.ZERO_OR_MORE, ['\n']) := rfl
    have hpo2 : parse_operator [' ', '*', '\n'] = (.ZERO_OR_MORE, ['\n']) := rfl
    simp only [hpo1, hpo2]
    cases hst : starStep defaultConfig
        (writeCurrent s1 sH8.exprPool.length .ZERO_OR_MORE v ty) ['\n']
        .ZERO_OR_MORE sH8.exprPool.length sH8.exprPool.length
        sH8.exprPool.length with
    | error e => simp only [hst]
    | ok t2 =>
      obtain ⟨s2, r2, c2⟩ := t2
      obtain ⟨-, -, -, hr2⟩ := starStep_state defaultConfig _ ['\n'] .ZERO_OR_MORE
        _ _ _ s2 r2 c2 hst
      have hr2n : r2 = ['\n'] := by
        rcases hr2 with h | h
        · exact h
        · rw [h]; decide
      subst hr2n
      simp only [hst]
      by_cases hcap2 : s2.exprPool.length < defaultConfig.maxNestedExprs
      · rw [if_pos hcap2, if_pos hcap2]
        simp [parse_operand_nl]
      · rw [if_neg hcap2, if_neg hcap2]

theorem parse_regexLine_cons (cfg : Config) (s : PState) (l : List Char) :
    parse_regexLine cfg s ('$' :: l) =
    (match parse_header cfg s ('$' :: l) with
     | .error e => .error e
     | .ok (s1, r1, i) =>
       match parse_body cfg s1 r1 i with
       | .error e => .error e
       | .ok (s2, _) =>
         .ok { s2 with nonterms :=
                 (s2.nonterms.set i
                   ({ s2.nonterms.getD i dfltNT with complete := true })) }) := rfl

theorem line_star_eq (term : List Char)
    (hne : ¬ term = []) (htok : ∀ c ∈ term, tokenChar c = true)
    (hat : '@' ∉ term) (hlast : ¬ term.getLastD '\x00' = '*')
    (hh1 : ¬ term.headD '\x00' = '|') (hh2 : ¬ term.headD '\x00' = '*')
    (hds : ¬ term = ['$']) :
    runSpec defaultConfig
        [['$', 'A', ' ', ':', '=', ' '] ++ (term ++ ['*', '\n'])] =
    runSpec defaultConfig
        [['$', 'A', ' ', ':', '=', ' '] ++ (term ++ [' ', '*', '\n'])] := by
  have hmem : term.headD '\x00' ∈ term := by
    cases term with
    | nil => exact absurd rfl hne
    | cons c t => exact List.mem_cons_self c t
  have htc1 : tokenChar ((term ++ ['*', '\n']).headD '\x00') = true := by
    rw [headD_append _ _ _ hne]
    exact htok _ hmem
  have htc2 : tokenChar ((term ++ [' ', '*', '\n']).headD '\x00') = true := by
    rw [headD_append _ _ _ hne]
    exact htok _ hmem
  have hA1 : parse_header defaultConfig initState
      ('$' :: (['A', ' ', ':', '=', ' '] ++ (term ++ ['*', '\n']))) =
      .ok (sH8, term ++ ['*', '\n'], 0) := header_A_line (term ++ ['*', '\n']) htc1
  have hA2 : parse_header defaultConfig initState
      ('$' :: (['A', ' ', ':', '=', ' '] ++ (term ++ [' ', '*', '\n']))) =
      .ok (sH8, term ++ [' ', '*', '\n'], 0) :=
    header_A_line (term ++ [' ', '*', '\n']) htc2
  rw [runSpec_single, runSpec_single]
  show parse_regexLine defaultConfig initState
      ('$' :: (['A', ' ', ':', '=', ' '] ++ (term ++ ['*', '\n']))) =
    parse_regexLine defaultConfig initState
      ('$' :: (['A', ' ', ':', '=', ' '] ++ (term ++ [' ', '*', '\n'])))
  rw [parse_regexLine_cons, parse_regexLine_cons]
  simp only [hA1, hA2]
  rw [body_star_eq term hne htok hat hlast hh1 hh2 hds]

/-- Claim C8: for every escape-free operand token not itself ending in a
star, the suffix `*` is excluded from the token and the cursor is backed up
onto it (`parse_operand` returns with the rest of the line still starting at
the `*`, which the following operator lex reads as `ZERO_OR_MORE`);
consequently the whole-line parses of `$A := term*` and `$A := term *`
coincide; and the line `$A := term@*` does not split: it stores the literal
terminal bytes `term*` under a `NO_OP`/`TERMINAL` root. -/
theorem thm_C8 (term : List Char)
    (hne : ¬ term = []) (htok : ∀ c ∈ term, tokenChar c = true)
    (hat : '@' ∉ term) (hlast : ¬ term.getLastD '\x00' = '*')
    (hh1 : ¬ term.headD '\x00' = '|') (hh2 : ¬ term.headD '\x00' = '*')
    (hds : ¬ term = ['$'])
    (hcap : term.length ≤ defaultConfig.maxTotalTermLen) :
    (∃ s1 ty v, ¬ ty = OperandType.NOTHING ∧
       parse_operand defaultConfig (bodyInit sH8 0) (term ++ ['*', '\n']) =
         .ok (s1, ['*', '\n'], ty, v) ∧
       parse_operator ['*', '\n'] = (.ZERO_OR_MORE, ['\n'])) ∧
    (runSpec defaultConfig
        [['$', 'A', ' ', ':', '=', ' '] ++ (term ++ ['*', '\n'])] =
     runSpec defaultConfig
        [['$', 'A', ' ', ':', '=', ' '] ++ (term ++ [' ', '*', '\n'])]) ∧
    (runSpec defaultConfig
        [['$', 'A', ' ', ':', '=', ' ', 't', 'e', 'r', 'm', '@', '*', '\n']] =
       .ok stC8 ∧
     stC8.termPool = ['t', 'e', 'r', 'm', '*', '\x00', '\x00'] ∧
     (stC8.exprPool.getD 0 dfltE).type = .NO_OP ∧
     (stC8.exprPool.getD 0 dfltE).op1Type = .TERMINAL) := by
  refine ⟨?_, line_star_eq term hne htok hat hlast hh1 hh2 hds, by decide⟩
  rcases operand_star_sides defaultConfig (bodyInit sH8 0) term hne htok hat
      hlast hh1 hh2 hds with ⟨hfact, -, -⟩ | ⟨s1, ty, v, hty, ho1, -⟩
  · exfalso
    have h0 : (bodyInit sH8 0).termPool.length = 0 := rfl
    have h1 : (bodyInit sH8 0).nonterms.length = 1 := rfl
    have hm1 : defaultConfig.maxNonterms = 64 := rfl
    have hm2 : defaultConfig.maxTotalTermLen = 1024 := rfl
    rw [h0, h1, hm1, hm2] at hfact
    rw [hm2] at hcap
    omega
  · exact ⟨s1, ty, v, hty, ho1, rfl⟩

/-- Witness for C8 at the token `xy`: the lines `$A := xy*` and
`$A := xy *` produce identical run results. -/
theorem wit_C8 :
    runSpec defaultConfig
        [['$', 'A', ' ', ':', '=', ' '] ++ (['x', 'y'] ++ ['*', '\n'])] =
    runSpec defaultConfig
        [['$', 'A', ' ', ':', '=', ' '] ++ (['x', 'y'] ++ [' ', '*', '\n'])] :=
  (thm_C8 ['x', 'y'] (by decide) (by decide) (by decide) (by decide)
    (by decide) (by decide) (by decide) (by decide)).2.1
